import Mathlib

/-!
Verification of the Planner workflow orchestrator
(`planner-orchestrator/state_manager.py` and `planner_client.py`).

The Python code is shallowly embedded: dictionaries become structures or
association lists, in-place mutation becomes functional update, raised
exceptions become the error side of an Except value, and calls to the
board client are recorded in an explicit call trace with the responses
supplied by an environment parameter.
-/

namespace Planner

/-- Embedding of Python str.upper for the ASCII phase names used here. -/
def strUpper (s : String) : String := String.mk (s.data.map Char.toUpper)

/-- PHASE_ORDER from state_manager.py. -/
def PHASE_ORDER : List String := ["EXPLORE", "PLAN", "CODE", "TEST", "FIX", "DOCUMENT"]

/-- BLOCKER_LABEL from state_manager.py. -/
def BLOCKER_LABEL : String := "category6"

/-- The four phase states used by the state manager. -/
inductive PhaseState
  | pending
  | inProgress
  | blocked
  | completed
deriving DecidableEq, Repr

/-- TASK_PERCENT_COMPLETE from state_manager.py: the fixed mapping from a
phase state to the percentComplete pushed to its tasks. -/
def TASK_PERCENT_COMPLETE : PhaseState → Int
  | .pending => 0
  | .inProgress => 50
  | .blocked => 50
  | .completed => 100

/-- A remote task snapshot as returned by the board client: the fields of
the Planner task dictionary that the state manager reads.  percentComplete
and the etag are optional because the Python code reads them with .get. -/
structure Task where
  id : String
  title : String
  percentComplete : Option Int
  appliedCategories : List (String × Bool)
  etag : Option String
deriving DecidableEq, Repr

/-- Lookup in an appliedCategories label map; a missing key is falsy in
Python, hence false here (dict.get returning None). -/
def lookupLabel (labels : List (String × Bool)) (k : String) : Bool :=
  match labels.find? (fun p => p.1 == k) with
  | some p => p.2
  | none => false

/-- Python dict assignment labels[k] = v on a label map. -/
def setLabel (labels : List (String × Bool)) (k : String) (v : Bool) : List (String × Bool) :=
  if labels.any (fun p => p.1 == k) then
    labels.map (fun p => if p.1 == k then (p.1, v) else p)
  else labels ++ [(k, v)]

/-- A task template of a phase, consumed by init_plan. -/
structure TaskTemplate where
  title : String
  checklist : List String := []
  description : Option String := none
deriving DecidableEq, Repr

/-- A phase of the workflow document: the fields read or written by the
state manager.  dependencies holds the phaseId values of the dependency
records; bucketId and taskIds are the remote binding written under the
phase's planner key. -/
structure Phase where
  id : String
  name : String
  state : PhaseState
  dependencies : List String
  owners : List String
  evidenceLinks : List String
  taskTemplates : List TaskTemplate := []
  bucketId : Option String := none
  taskIds : List String
deriving DecidableEq, Repr

/-- The metadata block of a workflow document. -/
structure Metadata where
  lastSyncedAt : Option String := none
  advancedAt : Option String := none
  activePhase : Option String := none
  dependencyIssues : Option (List String) := none
deriving DecidableEq, Repr

/-- A workflow document.  plannerPlanId and plannerGroupId are the
document's planner.planId and planner.groupId keys written by
init_plan. -/
structure Workflow where
  workflowId : Option String := none
  name : Option String := none
  phases : List Phase
  metadata : Metadata
  plannerPlanId : Option String := none
  plannerGroupId : Option String := none
deriving DecidableEq, Repr

/-- Typed transport error raised by the board client (PlannerError in
planner_client.py): a non-2xx response carrying status and body, or a
connection failure carrying the underlying message. -/
inductive PlannerError
  | api (status : Nat) (detail : String)
  | connection (msg : String)
deriving DecidableEq, Repr

/-- Errors a state-manager operation can raise: a propagated transport
error, or the ValueError raised by _phase_index on an invalid name. -/
inductive Err
  | transport (e : PlannerError)
  | valueError (msg : String)
deriving DecidableEq, Repr

/-- _phase_index from state_manager.py: uppercase the name, error if it is
not in PHASE_ORDER, otherwise its index in PHASE_ORDER. -/
def phase_index (phase_name : String) : Except Err Nat :=
  let normalized := strUpper phase_name
  match PHASE_ORDER.findIdx? (fun n => n == normalized) with
  | some i => .ok i
  | none => .error (.valueError ("Invalid phase " ++ phase_name ++ "."))

/-- evaluate_phase_state from state_manager.py, the PhaseStateEvaluator. -/
def evaluate_phase_state (tasks : List Task) : PhaseState :=
  if tasks.isEmpty then .pending
  else if tasks.any (fun task => lookupLabel task.appliedCategories BLOCKER_LABEL) then .blocked
  else
    let completion := tasks.map (fun task => task.percentComplete.getD 0)
    if completion.all (fun v => v == 100) then .completed
    else if completion.any (fun v => decide (0 < v)) then .inProgress
    else .pending

/-- The five-rule algorithm exactly as the specification words it: no
tasks gives pending; any task whose labels map the blocker label to true
gives blocked; else all tasks at 100 percent gives completed; else any
task above 0 percent gives in-progress; else pending. -/
def specPhaseState (tasks : List Task) : PhaseState :=
  if tasks.length = 0 then .pending
  else if ∃ t ∈ tasks, lookupLabel t.appliedCategories BLOCKER_LABEL = true then .blocked
  else if ∀ t ∈ tasks, t.percentComplete.getD 0 = 100 then .completed
  else if ∃ t ∈ tasks, 0 < t.percentComplete.getD 0 then .inProgress
  else .pending

/-- A call made to the board client by the state manager, with the
arguments the manager supplies (update_task_details is recorded by task
id and etag). -/
inductive ClientCall
  | getTask (task_id : String)
  | updateTask (task_id : String) (etag : String) (percentComplete : Int)
      (appliedCategories : List (String × Bool))
  | createPlan (group_id : String) (title : String)
  | createBucket (plan_id : String) (name : String) (order_hint : String)
  | createTask (plan_id : String) (bucket_id : String) (title : String)
  | getTaskDetails (task_id : String)
  | updateTaskDetails (task_id : String) (etag : String)
deriving DecidableEq, Repr

/-- Whether a client call is a mutating (write) call. -/
def ClientCall.isMutating : ClientCall → Bool
  | .getTask _ => false
  | .getTaskDetails _ => false
  | .updateTask _ _ _ _ => true
  | .createPlan _ _ => true
  | .createBucket _ _ _ => true
  | .createTask _ _ _ => true
  | .updateTaskDetails _ _ => true

/-- The board client seen from the state manager: what each get_task and
update_task call returns (an error models the typed transport error the
client raises). -/
structure ClientEnv where
  getResult : String → Except PlannerError Task
  updateResult : String → String → Int → List (String × Bool) → Except PlannerError Unit

/-- A board client whose reads always succeed, answering from a fixed
snapshot table, and whose writes are accepted. -/
def pureEnv (get : String → Task) : ClientEnv where
  getResult := fun tid => .ok (get tid)
  updateResult := fun _ _ _ _ => .ok ()

/-- A board client for which every call fails with the same transport
error. -/
def failEnv (e : PlannerError) : ClientEnv where
  getResult := fun _ => .error e
  updateResult := fun _ _ _ _ => .error e

/-- Python truthiness of an optional etag string: None and the empty
string are falsy. -/
def etagTruthy : Option String → Bool
  | none => false
  | some s => !(s == "")

/-- The task-fetch loop of sync_workflow: get_task for each bound id in
order, stopping at the first transport error. -/
def fetchTasks (env : ClientEnv) : List String → Except PlannerError (List Task) × List ClientCall
  | [] => (.ok [], [])
  | tid :: rest =>
    match env.getResult tid with
    | .error e => (.error e, [.getTask tid])
    | .ok t =>
      match fetchTasks env rest with
      | (.error e, calls) => (.error e, .getTask tid :: calls)
      | (.ok ts, calls) => (.ok (t :: ts), .getTask tid :: calls)

/-- Lookup of the phase_map dictionary built by _validate_dependencies:
a Python dict comprehension keeps the last phase for a duplicated id. -/
def phaseMapLookup (phases : List Phase) (pid : String) : Option Phase :=
  phases.reverse.find? (fun p => p.id == pid)

/-- The inner dependency loop of _validate_dependencies for one phase:
a missing dependency is reported, a dependency whose index is not
strictly smaller than the phase's own is reported, and an invalid phase
name raises. -/
def depIssues (phases : List Phase) (pid : String) (current_index : Nat) :
    List String → Except Err (List String)
  | [] => .ok []
  | dep_id :: rest =>
    match phaseMapLookup phases dep_id with
    | none =>
      match depIssues phases pid current_index rest with
      | .error e => .error e
      | .ok more => .ok ((pid ++ ": missing dependency " ++ dep_id) :: more)
    | some depPhase =>
      match phase_index depPhase.name with
      | .error e => .error e
      | .ok dep_index =>
        match depIssues phases pid current_index rest with
        | .error e => .error e
        | .ok more =>
          if current_index ≤ dep_index then
            .ok ((pid ++ ": dependency " ++ dep_id ++ " is not earlier phase") :: more)
          else .ok more

/-- The outer loop of _validate_dependencies over the phase list. -/
def validateDeps (phases : List Phase) : List Phase → Except Err (List String)
  | [] => .ok []
  | phase :: rest =>
    match phase_index phase.name with
    | .error e => .error e
    | .ok current_index =>
      match depIssues phases phase.id current_index phase.dependencies with
      | .error e => .error e
      | .ok mine =>
        match validateDeps phases rest with
        | .error e => .error e
        | .ok others => .ok (mine ++ others)

/-- _validate_dependencies from state_manager.py. -/
def validate_dependencies (workflow : Workflow) : Except Err (List String) :=
  validateDeps workflow.phases workflow.phases

/-- The per-phase body of sync_workflow: fetch the bound tasks and
overwrite the phase state with the evaluated one. -/
def syncPhasesGo (env : ClientEnv) : List Phase → Except Err (List Phase) × List ClientCall
  | [] => (.ok [], [])
  | phase :: rest =>
    match fetchTasks env phase.taskIds with
    | (.error e, calls) => (.error (.transport e), calls)
    | (.ok tasks, calls) =>
      let phase' := { phase with state := evaluate_phase_state tasks }
      match syncPhasesGo env rest with
      | (.error e, calls2) => (.error e, calls ++ calls2)
      | (.ok ps, calls2) => (.ok (phase' :: ps), calls ++ calls2)

/-- Outcome of the HTTP exchange attempted by PlannerClient._request: a
2xx response with its raw body, a non-2xx response (urllib HTTPError)
with status code and body, or a connection failure (urllib URLError). -/
inductive HttpOutcome
  | success (raw : String)
  | httpError (code : Nat) (detail : String)
  | urlError (msg : String)
deriving DecidableEq, Repr

/-- The value PlannerClient._request returns: the parsed JSON body, the
empty dictionary for an empty body, or the dry-run echo of the intended
method, path and payload. -/
inductive ReqResult
  | parsed (raw : String)
  | emptyDict
  | echo (method : String) (path : String) (payload : List (String × String))
deriving DecidableEq, Repr

/-- PlannerClient._request from planner_client.py: in dry-run mode a
non-GET call returns the echo object without touching the network; any
other call performs the exchange, mapping an HTTPError to a typed error
carrying status and body, a URLError to a typed connection error, and a
2xx response to its (possibly empty) parsed body. -/
def planner_request (dry_run : Bool) (method path : String)
    (json_payload : Option (List (String × String))) (outcome : HttpOutcome) :
    Except PlannerError ReqResult :=
  if dry_run && !(strUpper method == "GET") then
    .ok (.echo (strUpper method) path (json_payload.getD []))
  else
    match outcome with
    | .success raw => if raw == "" then .ok .emptyDict else .ok (.parsed raw)
    | .httpError code detail => .error (.api code detail)
    | .urlError msg => .error (.connection msg)

/-- sync_workflow from state_manager.py.  now is the utc_now_iso reading
taken during the call. -/
def sync_workflow (env : ClientEnv) (now : String) (w : Workflow) :
    Except Err Workflow × List ClientCall :=
  match syncPhasesGo env w.phases with
  | (.error e, calls) => (.error e, calls)
  | (.ok phases', calls) =>
    let md1 := { w.metadata with lastSyncedAt := some now }
    let w1 : Workflow := { w with phases := phases', metadata := md1 }
    match validate_dependencies w1 with
    | .error e => (.error e, calls)
    | .ok issues =>
      let md2 := { md1 with dependencyIssues := some issues }
      (.ok { w1 with metadata := md2 }, calls)

/-- The task loop of _sync_phase_tasks: fetch each bound task, skip it
when its etag is falsy, otherwise push the desired percentComplete and
the label map with the blocker label overwritten. -/
def syncTasksGo (env : ClientEnv) (st : PhaseState) (desired : Int) :
    List String → Except Err Unit × List ClientCall
  | [] => (.ok (), [])
  | tid :: rest =>
    match env.getResult tid with
    | .error e => (.error (.transport e), [.getTask tid])
    | .ok task =>
      if etagTruthy task.etag then
        let et := task.etag.getD ""
        let labels := setLabel task.appliedCategories BLOCKER_LABEL (st == .blocked)
        match env.updateResult tid et desired labels with
        | .error e => (.error (.transport e), [.getTask tid, .updateTask tid et desired labels])
        | .ok _ =>
          match syncTasksGo env st desired rest with
          | (r, calls) => (r, .getTask tid :: .updateTask tid et desired labels :: calls)
      else
        match syncTasksGo env st desired rest with
        | (r, calls) => (r, .getTask tid :: calls)

/-- _sync_phase_tasks from state_manager.py, applied to a phase whose
state has already been set. -/
def sync_phase_tasks (env : ClientEnv) (phase : Phase) : Except Err Unit × List ClientCall :=
  syncTasksGo env phase.state (TASK_PERCENT_COMPLETE phase.state) phase.taskIds

/-- The conditional expression advance_phase assigns to a phase's state:
completed below the target index, in-progress at it, pending above. -/
def advState (target_index idx : Nat) : PhaseState :=
  if idx < target_index then .completed
  else if idx = target_index then .inProgress
  else .pending

/-- The phase loop of advance_phase: recompute each phase's state from
its index relative to the target and push it to the bound tasks. -/
def advancePhaseGo (env : ClientEnv) (target_index : Nat) :
    List Phase → Except Err (List Phase) × List ClientCall
  | [] => (.ok [], [])
  | phase :: rest =>
    match phase_index phase.name with
    | .error e => (.error e, [])
    | .ok idx =>
      let phase' := { phase with state := advState target_index idx }
      match sync_phase_tasks env phase' with
      | (.error e, calls) => (.error e, calls)
      | (.ok _, calls) =>
        match advancePhaseGo env target_index rest with
        | (.error e, calls2) => (.error e, calls ++ calls2)
        | (.ok ps, calls2) => (.ok (phase' :: ps), calls ++ calls2)

/-- advance_phase from state_manager.py.  now is the utc_now_iso reading
taken during the call. -/
def advance_phase (env : ClientEnv) (now : String) (w : Workflow) (phase_name : String) :
    Except Err Workflow × List ClientCall :=
  match phase_index phase_name with
  | .error e => (.error e, [])
  | .ok target_index =>
    match advancePhaseGo env target_index w.phases with
    | (.error e, calls) => (.error e, calls)
    | (.ok phases', calls) =>
      let md := { w.metadata with advancedAt := some now, activePhase := some (strUpper phase_name) }
      (.ok { w with phases := phases', metadata := md }, calls)

/-- One entry of the closeout pack's phaseSummary. -/
structure PhaseSummary where
  phase : String
  state : PhaseState
  evidenceLinks : List String
  taskCount : Nat
deriving DecidableEq, Repr

/-- The closeout pack record. -/
structure CloseoutPack where
  workflowId : Option String
  workflowName : Option String
  generatedAt : String
  dependencyIssues : List String
  phaseSummary : List PhaseSummary
  allPhasesCompleted : Bool
deriving DecidableEq, Repr

/-- closeout_pack from state_manager.py: run sync_workflow, then derive
the summary and the allPhasesCompleted gate.  nowSync and nowGen are the
two utc_now_iso readings. -/
def closeout_pack (env : ClientEnv) (nowSync nowGen : String) (w : Workflow) :
    Except Err CloseoutPack × List ClientCall :=
  match sync_workflow env nowSync w with
  | (.error e, calls) => (.error e, calls)
  | (.ok synced, calls) =>
    let summary := synced.phases.map (fun p =>
      ({ phase := p.name, state := p.state, evidenceLinks := p.evidenceLinks,
         taskCount := p.taskIds.length } : PhaseSummary))
    let pack : CloseoutPack :=
      { workflowId := synced.workflowId, workflowName := synced.name, generatedAt := nowGen,
        dependencyIssues := (synced.metadata.dependencyIssues).getD [], phaseSummary := summary,
        allPhasesCompleted := summary.all (fun item => item.state == .completed) }
    (.ok pack, calls)

/-- A blocked-task entry of the blocker report. -/
structure BlockedTask where
  id : String
  title : String
  percentComplete : Int
deriving DecidableEq, Repr

/-- A blocked-phase entry of the blocker report. -/
structure BlockedPhase where
  phaseId : String
  phase : String
  owners : List String
  blockedTasks : List BlockedTask
deriving DecidableEq, Repr

/-- The blocker report. -/
structure BlockerReport where
  workflowId : Option String
  generatedAt : String
  blockedPhases : List BlockedPhase
deriving DecidableEq, Repr

/-- The task loop of blocker_report: fetch each bound task and collect
those carrying the blocker label. -/
def collectBlocked (env : ClientEnv) :
    List String → Except Err (List BlockedTask) × List ClientCall
  | [] => (.ok [], [])
  | tid :: rest =>
    match env.getResult tid with
    | .error e => (.error (.transport e), [.getTask tid])
    | .ok task =>
      match collectBlocked env rest with
      | (.error e, calls) => (.error e, .getTask tid :: calls)
      | (.ok bts, calls) =>
        if lookupLabel task.appliedCategories BLOCKER_LABEL then
          (.ok ({ id := tid, title := task.title,
                  percentComplete := task.percentComplete.getD 0 } :: bts),
           .getTask tid :: calls)
        else (.ok bts, .getTask tid :: calls)

/-- The phase loop of blocker_report: a phase contributes an entry only
when it has at least one blocked task. -/
def blockerPhasesGo (env : ClientEnv) :
    List Phase → Except Err (List BlockedPhase) × List ClientCall
  | [] => (.ok [], [])
  | phase :: rest =>
    match collectBlocked env phase.taskIds with
    | (.error e, calls) => (.error e, calls)
    | (.ok bts, calls) =>
      match blockerPhasesGo env rest with
      | (.error e, calls2) => (.error e, calls ++ calls2)
      | (.ok bps, calls2) =>
        if bts.isEmpty then (.ok bps, calls ++ calls2)
        else
          (.ok ({ phaseId := phase.id, phase := phase.name, owners := phase.owners,
                  blockedTasks := bts } :: bps),
           calls ++ calls2)

/-- blocker_report from state_manager.py. -/
def blocker_report (env : ClientEnv) (now : String) (w : Workflow) :
    Except Err BlockerReport × List ClientCall :=
  match blockerPhasesGo env w.phases with
  | (.error e, calls) => (.error e, calls)
  | (.ok bps, calls) =>
    (.ok { workflowId := w.workflowId, generatedAt := now, blockedPhases := bps }, calls)

/-- Python truthiness of an optional string: None and the empty string
are falsy. -/
def strOptTruthy : Option String → Bool
  | none => false
  | some s => !(s == "")

/-- A checklist item built by init_plan from a template entry. -/
structure ChecklistItem where
  title : String
  isChecked : Bool
  orderHint : String
deriving DecidableEq, Repr

/-- The checklist dictionary init_plan builds: entries item-i with the
template's text, unchecked, and an order hint, numbered from 1. -/
def buildChecklist (items : List String) : List (String × ChecklistItem) :=
  items.enum.map fun p =>
    ("item-" ++ toString (p.1 + 1),
     { title := p.2, isChecked := false, orderHint := " !" ++ toString (p.1 + 1) })

/-- The remaining board-client methods, used only by init_plan: what
each call returns.  Create results carry the id field of the returned
resource, get_task_details the details etag. -/
structure InitEnv where
  createPlanResult : String → String → Except PlannerError (Option String)
  createBucketResult : String → String → String → Except PlannerError (Option String)
  createTaskResult : String → String → String → Except PlannerError (Option String)
  getTaskDetailsResult : String → Except PlannerError (Option String)
  updateTaskDetailsResult : String → String → Except PlannerError Unit

/-- An init-capable client for which every call fails with the same
transport error. -/
def failInitEnv (e : PlannerError) : InitEnv where
  createPlanResult := fun _ _ => .error e
  createBucketResult := fun _ _ _ => .error e
  createTaskResult := fun _ _ _ => .error e
  getTaskDetailsResult := fun _ => .error e
  updateTaskDetailsResult := fun _ _ => .error e

/-- The task-template loop of init_plan: create each task, skip binding
when the response carries no truthy id, otherwise bind it and seed its
details when a details etag is available and the template has a
checklist or description. -/
def initTasksGo (ienv : InitEnv) (plan_id bucket_id : String) :
    List TaskTemplate → Except Err (List String) × List ClientCall
  | [] => (.ok [], [])
  | tpl :: rest =>
    match ienv.createTaskResult plan_id bucket_id tpl.title with
    | .error e => (.error (.transport e), [.createTask plan_id bucket_id tpl.title])
    | .ok tidOpt =>
      if strOptTruthy tidOpt then
        let tid := tidOpt.getD ""
        match ienv.getTaskDetailsResult tid with
        | .error e =>
          (.error (.transport e), [.createTask plan_id bucket_id tpl.title, .getTaskDetails tid])
        | .ok detOpt =>
          if strOptTruthy detOpt && (!tpl.checklist.isEmpty || strOptTruthy tpl.description) then
            match ienv.updateTaskDetailsResult tid (detOpt.getD "") with
            | .error e =>
              (.error (.transport e),
               [.createTask plan_id bucket_id tpl.title, .getTaskDetails tid,
                .updateTaskDetails tid (detOpt.getD "")])
            | .ok _ =>
              match initTasksGo ienv plan_id bucket_id rest with
              | (.error e, calls) =>
                (.error e,
                 .createTask plan_id bucket_id tpl.title :: .getTaskDetails tid ::
                   .updateTaskDetails tid (detOpt.getD "") :: calls)
              | (.ok tids, calls) =>
                (.ok (tid :: tids),
                 .createTask plan_id bucket_id tpl.title :: .getTaskDetails tid ::
                   .updateTaskDetails tid (detOpt.getD "") :: calls)
          else
            match initTasksGo ienv plan_id bucket_id rest with
            | (.error e, calls) =>
              (.error e, .createTask plan_id bucket_id tpl.title :: .getTaskDetails tid :: calls)
            | (.ok tids, calls) =>
              (.ok (tid :: tids),
               .createTask plan_id bucket_id tpl.title :: .getTaskDetails tid :: calls)
      else
        match initTasksGo ienv plan_id bucket_id rest with
        | (r, calls) => (r, .createTask plan_id bucket_id tpl.title :: calls)

/-- The phase loop of init_plan: create one bucket per phase in order
(order hints numbered from 1), bind it, and create the phase's tasks. -/
def initPhasesGo (ienv : InitEnv) (plan_id : String) (idx : Nat) :
    List Phase → Except Err (List Phase) × List ClientCall
  | [] => (.ok [], [])
  | phase :: rest =>
    match ienv.createBucketResult plan_id phase.name (" !" ++ toString idx) with
    | .error e => (.error (.transport e), [.createBucket plan_id phase.name (" !" ++ toString idx)])
    | .ok bidOpt =>
      let bucket_id := bidOpt.getD ""
      match initTasksGo ienv plan_id bucket_id phase.taskTemplates with
      | (.error e, calls) =>
        (.error e, .createBucket plan_id phase.name (" !" ++ toString idx) :: calls)
      | (.ok tids, calls) =>
        let phase' := { phase with bucketId := some bucket_id, taskIds := tids }
        match initPhasesGo ienv plan_id (idx + 1) rest with
        | (.error e, calls2) =>
          (.error e, .createBucket plan_id phase.name (" !" ++ toString idx) :: calls ++ calls2)
        | (.ok ps, calls2) =>
          (.ok (phase' :: ps),
           .createBucket plan_id phase.name (" !" ++ toString idx) :: calls ++ calls2)

/-- init_plan from state_manager.py: create the plan, bind its id and
the group id into the document, then create buckets and tasks per
phase. -/
def init_plan (ienv : InitEnv) (w : Workflow) (group_id title : String) :
    Except Err Workflow × List ClientCall :=
  match ienv.createPlanResult group_id title with
  | .error e => (.error (.transport e), [.createPlan group_id title])
  | .ok pidOpt =>
    let plan_id := pidOpt.getD ""
    match initPhasesGo ienv plan_id 1 w.phases with
    | (.error e, calls) => (.error e, .createPlan group_id title :: calls)
    | (.ok ps, calls) =>
      let w2 : Workflow :=
        { w with phases := ps, plannerPlanId := some plan_id, plannerGroupId := some group_id }
      (.ok w2, .createPlan group_id title :: calls)

/-! Specification-side definitions, used to state the claims. -/

/-- The state the specification assigns during an advance: index below
the target is completed, the target itself in-progress, later phases
pending. -/
def specAdvState (target_index idx : Nat) : PhaseState :=
  if idx < target_index then .completed
  else if idx = target_index then .inProgress
  else .pending

/-- Whether a phase name is (after upper-casing) one of the fixed ordered
set. -/
def nameValid (name : String) : Bool :=
  (PHASE_ORDER.findIdx? (fun n => n == strUpper name)).isSome

/-- The order-index of a valid phase name in the fixed ordered set. -/
def phaseIdxD (name : String) : Nat :=
  (PHASE_ORDER.findIdx? (fun n => n == strUpper name)).getD 0

/-- The fixed percentComplete mapping exactly as the specification
states it: pending to 0, in-progress to 50, blocked to 50, completed to
100. -/
def specPercent : PhaseState → Int
  | .pending => 0
  | .inProgress => 50
  | .blocked => 50
  | .completed => 100

/-- The calls the specification prescribes for pushing one phase's new
state to one bound task: re-fetch the task, then push the mapped
percentComplete together with the task's label map whose blocker label
is set to whether the state is blocked. -/
def specPush (get : String → Task) (st : PhaseState) (tid : String) : List ClientCall :=
  [.getTask tid,
   .updateTask tid ((get tid).etag.getD "") (specPercent st)
     (setLabel (get tid).appliedCategories BLOCKER_LABEL (st == .blocked))]

/-! Helper lemmas. -/

theorem phase_index_of_valid (name : String) (h : nameValid name = true) :
    phase_index name = .ok (phaseIdxD name) := by
  unfold nameValid at h
  unfold phase_index phaseIdxD
  cases hf : PHASE_ORDER.findIdx? (fun n => n == strUpper name) with
  | none => rw [hf] at h; simp at h
  | some i => simp [hf]

theorem perm_any {α : Type} {l l' : List α} (h : l.Perm l') (f : α → Bool) :
    l.any f = l'.any f := by
  cases hv : l'.any f with
  | true =>
    rw [List.any_eq_true] at hv ⊢
    obtain ⟨x, hx, hfx⟩ := hv
    exact ⟨x, h.mem_iff.2 hx, hfx⟩
  | false =>
    rw [List.any_eq_false] at hv ⊢
    intro x hx
    exact hv x (h.mem_iff.1 hx)

theorem perm_all {α : Type} {l l' : List α} (h : l.Perm l') (f : α → Bool) :
    l.all f = l'.all f := by
  cases hv : l'.all f with
  | true =>
    rw [List.all_eq_true] at hv ⊢
    intro x hx
    exact hv x (h.mem_iff.1 hx)
  | false =>
    rw [List.all_eq_false] at hv
    obtain ⟨x, hx, hfx⟩ := hv
    rw [List.all_eq_false]
    exact ⟨x, h.mem_iff.2 hx, hfx⟩

/-- The state overwrite sync_workflow performs on one phase. -/
def syncF (get : String → Task) (p : Phase) : Phase :=
  { p with state := evaluate_phase_state (p.taskIds.map get) }

/-- The per-phase state overwrite performed by sync_workflow. -/
def syncStates (get : String → Task) (phases : List Phase) : List Phase :=
  phases.map (syncF get)

theorem fetchTasks_reads (env : ClientEnv) (ids : List String) :
    ((fetchTasks env ids).2.all fun c => !c.isMutating) = true := by
  induction ids with
  | nil => rfl
  | cons tid rest ih =>
    unfold fetchTasks
    cases hg : env.getResult tid with
    | error e => simp [ClientCall.isMutating]
    | ok t =>
      revert ih
      cases hf : fetchTasks env rest with
      | mk r calls =>
        intro ih
        cases r <;> simp_all [ClientCall.isMutating]

theorem syncPhasesGo_reads (env : ClientEnv) (phases : List Phase) :
    ((syncPhasesGo env phases).2.all fun c => !c.isMutating) = true := by
  induction phases with
  | nil => rfl
  | cons p rest ih =>
    unfold syncPhasesGo
    have hfr := fetchTasks_reads env p.taskIds
    revert hfr
    cases hf : fetchTasks env p.taskIds with
    | mk r calls =>
      intro hfr
      cases r with
      | error e => simpa using hfr
      | ok ts =>
        revert ih
        cases hs : syncPhasesGo env rest with
        | mk r2 calls2 =>
          intro ih
          cases r2 <;> simp_all

theorem fetchTasks_pure (get : String → Task) (ids : List String) :
    fetchTasks (pureEnv get) ids = (.ok (ids.map get), ids.map ClientCall.getTask) := by
  induction ids with
  | nil => rfl
  | cons tid rest ih =>
    unfold fetchTasks
    rw [show (pureEnv get).getResult tid = Except.ok (get tid) from rfl, ih]
    rfl

theorem syncPhasesGo_pure (get : String → Task) (phases : List Phase) :
    syncPhasesGo (pureEnv get) phases =
      (.ok (syncStates get phases),
       phases.flatMap fun p => p.taskIds.map ClientCall.getTask) := by
  induction phases with
  | nil => rfl
  | cons p rest ih => simp [syncPhasesGo, fetchTasks_pure, ih, syncStates, syncF]

theorem phaseMapLookup_mem {phases : List Phase} {pid : String} {p : Phase}
    (h : phaseMapLookup phases pid = some p) : p ∈ phases :=
  List.mem_reverse.1 (List.mem_of_find?_eq_some h)

theorem depIssues_ok (phases : List Phase) (hphases : ∀ p ∈ phases, nameValid p.name = true)
    (pid : String) (ci : Nat) (deps : List String) :
    ∃ is, depIssues phases pid ci deps = .ok is := by
  induction deps with
  | nil => exact ⟨[], rfl⟩
  | cons d rest ih =>
    obtain ⟨is, his⟩ := ih
    unfold depIssues
    cases hl : phaseMapLookup phases d with
    | none => rw [his]; exact ⟨_, rfl⟩
    | some dp =>
      dsimp only
      rw [phase_index_of_valid dp.name (hphases dp (phaseMapLookup_mem hl)), his]
      dsimp only
      by_cases hc : ci ≤ phaseIdxD dp.name
      · rw [if_pos hc]; exact ⟨_, rfl⟩
      · rw [if_neg hc]; exact ⟨_, rfl⟩

theorem validateDeps_ok (phases : List Phase) (hphases : ∀ p ∈ phases, nameValid p.name = true) :
    ∀ l : List Phase, (∀ p ∈ l, nameValid p.name = true) →
      ∃ is, validateDeps phases l = .ok is := by
  intro l
  induction l with
  | nil => exact fun _ => ⟨[], rfl⟩
  | cons q rest ih =>
    intro hl
    obtain ⟨is2, his2⟩ := ih fun p hp => hl p (List.mem_cons_of_mem q hp)
    obtain ⟨is1, his1⟩ :=
      depIssues_ok phases hphases q.id (phaseIdxD q.name) q.dependencies
    unfold validateDeps
    rw [phase_index_of_valid q.name (hl q (List.mem_cons_self q rest))]
    dsimp only
    rw [his1]
    dsimp only
    rw [his2]
    exact ⟨_, rfl⟩

/-- The document the specification says sync_workflow produces, given
the recorded dependency issues: every phase state derived from its
fetched tasks, lastSyncedAt stamped, issues recorded in metadata, and
everything else untouched. -/
def specSyncedDoc (get : String → Task) (now : String) (w : Workflow)
    (issues : List String) : Workflow :=
  { w with
      phases := syncStates get w.phases,
      metadata := { w.metadata with
                      lastSyncedAt := some now,
                      dependencyIssues := some issues } }

theorem syncStates_valid (get : String → Task) (phases : List Phase)
    (hv : ∀ p ∈ phases, nameValid p.name = true) :
    ∀ p ∈ syncStates get phases, nameValid p.name = true := by
  intro p hp
  obtain ⟨q, hq, rfl⟩ := List.mem_map.1 hp
  exact hv q hq

theorem phaseMapLookup_map (get : String → Task) (phases : List Phase) (pid : String) :
    phaseMapLookup (phases.map (syncF get)) pid =
      (phaseMapLookup phases pid).map (syncF get) := by
  unfold phaseMapLookup
  rw [← List.map_reverse, List.find?_map]
  congr 1

theorem depIssues_map (get : String → Task) (phases : List Phase) (pid : String) (ci : Nat)
    (deps : List String) :
    depIssues (phases.map (syncF get)) pid ci deps = depIssues phases pid ci deps := by
  induction deps with
  | nil => rfl
  | cons d rest ih =>
    unfold depIssues
    rw [phaseMapLookup_map, ih]
    cases phaseMapLookup phases d with
    | none => rfl
    | some dp => rfl

theorem validateDeps_map (get : String → Task) (phases : List Phase) :
    ∀ l : List Phase,
      validateDeps (phases.map (syncF get)) (l.map (syncF get)) = validateDeps phases l := by
  intro l
  induction l with
  | nil => rfl
  | cons q rest ih =>
    show validateDeps _ (syncF get q :: rest.map (syncF get)) = _
    unfold validateDeps
    simp only [depIssues_map, ih]
    rfl

theorem sync_workflow_pure (get : String → Task) (now : String) (w : Workflow)
    (hv : ∀ p ∈ w.phases, nameValid p.name = true) :
    ∃ issues,
      validateDeps (syncStates get w.phases) (syncStates get w.phases) = .ok issues ∧
      sync_workflow (pureEnv get) now w =
        (.ok (specSyncedDoc get now w issues),
         w.phases.flatMap fun p => p.taskIds.map ClientCall.getTask) := by
  have hv' := syncStates_valid get w.phases hv
  obtain ⟨issues, hvd⟩ := validateDeps_ok (syncStates get w.phases) hv' _ hv'
  refine ⟨issues, hvd, ?_⟩
  unfold sync_workflow
  rw [syncPhasesGo_pure get w.phases]
  dsimp only
  unfold validate_dependencies
  dsimp only
  rw [hvd]
  rfl

theorem depIssues_flags (phases : List Phase) (pid : String) (ci : Nat)
    (deps : List String) (d : String) (dp : Phase)
    (hd : d ∈ deps) (hl : phaseMapLookup phases d = some dp)
    (hvdp : nameValid dp.name = true) (hge : ci ≤ phaseIdxD dp.name) :
    ∀ is, depIssues phases pid ci deps = .ok is →
      (pid ++ ": dependency " ++ d ++ " is not earlier phase") ∈ is := by
  induction deps with
  | nil => cases hd
  | cons d0 rest ih =>
    intro is h
    unfold depIssues at h
    rcases List.mem_cons.1 hd with rfl | hdrest
    · rw [hl] at h
      dsimp only at h
      rw [phase_index_of_valid dp.name hvdp] at h
      dsimp only at h
      cases hr : depIssues phases pid ci rest with
      | error e => rw [hr] at h; cases h
      | ok more =>
        rw [hr] at h
        dsimp only at h
        rw [if_pos hge] at h
        cases h
        exact List.mem_cons_self _ _
    · cases hl0 : phaseMapLookup phases d0 with
      | none =>
        rw [hl0] at h
        dsimp only at h
        cases hr : depIssues phases pid ci rest with
        | error e => rw [hr] at h; cases h
        | ok more =>
          rw [hr] at h
          dsimp only at h
          cases h
          exact List.mem_cons_of_mem _ (ih hdrest more hr)
      | some dp0 =>
        rw [hl0] at h
        dsimp only at h
        cases hpi : phase_index dp0.name with
        | error e => rw [hpi] at h; cases h
        | ok di0 =>
          rw [hpi] at h
          dsimp only at h
          cases hr : depIssues phases pid ci rest with
          | error e => rw [hr] at h; cases h
          | ok more =>
            rw [hr] at h
            dsimp only at h
            by_cases hc : ci ≤ di0
            · rw [if_pos hc] at h
              cases h
              exact List.mem_cons_of_mem _ (ih hdrest more hr)
            · rw [if_neg hc] at h
              cases h
              exact ih hdrest _ hr

theorem validateDeps_flags (phases : List Phase) (p : Phase) (d : String) (dp : Phase)
    (hd : d ∈ p.dependencies) (hl : phaseMapLookup phases d = some dp)
    (hvdp : nameValid dp.name = true) (hvp : nameValid p.name = true)
    (hge : phaseIdxD p.name ≤ phaseIdxD dp.name) :
    ∀ l : List Phase, p ∈ l → ∀ is, validateDeps phases l = .ok is →
      (p.id ++ ": dependency " ++ d ++ " is not earlier phase") ∈ is := by
  intro l
  induction l with
  | nil => intro hp; cases hp
  | cons q rest ih =>
    intro hp is h
    unfold validateDeps at h
    cases hpi : phase_index q.name with
    | error e => rw [hpi] at h; cases h
    | ok ci =>
      rw [hpi] at h
      dsimp only at h
      cases hdi : depIssues phases q.id ci q.dependencies with
      | error e => rw [hdi] at h; cases h
      | ok mine =>
        rw [hdi] at h
        dsimp only at h
        cases hrest : validateDeps phases rest with
        | error e => rw [hrest] at h; cases h
        | ok others =>
          rw [hrest] at h
          dsimp only at h
          cases h
          rcases List.mem_cons.1 hp with rfl | hprest
          · have hci : ci = phaseIdxD p.name := by
              rw [phase_index_of_valid p.name hvp] at hpi
              injection hpi with h2
              exact h2.symm
            subst hci
            exact List.mem_append_left _
              (depIssues_flags phases p.id _ p.dependencies d dp hd hl hvdp hge mine hdi)
          · exact List.mem_append_right _ (ih hprest others hrest)

/-! Claim theorems. -/

/-- C1: for every list of remote task snapshots, evaluate_phase_state
returns exactly the state given by the specification's five-rule
algorithm: an empty list yields pending; otherwise any task whose labels
map the blocker label to true yields blocked (taking priority even when
every task is at 100 percent); otherwise all tasks at 100 percent yields
completed; otherwise any task above 0 percent yields in-progress;
otherwise pending. -/
theorem evaluate_phase_state_follows_spec (tasks : List Task) :
    evaluate_phase_state tasks = specPhaseState tasks := by
  unfold evaluate_phase_state specPhaseState
  have h1 : (tasks.isEmpty = true) = (tasks.length = 0) := by
    cases tasks <;> simp
  have h3 : ((tasks.map fun t => t.percentComplete.getD 0).all (fun v => v == 100) = true)
      = ∀ t ∈ tasks, t.percentComplete.getD 0 = 100 := by
    simp [List.all_map, Function.comp]
  have h4 : ((tasks.map fun t => t.percentComplete.getD 0).any (fun v => decide (0 < v)) = true)
      = ∃ t ∈ tasks, 0 < t.percentComplete.getD 0 := by
    simp [List.any_map, Function.comp]
  simp only [List.any_eq_true, h1, h3, h4]

/-- C9: evaluate_phase_state is order-independent: permuting the task
list leaves the evaluated phase state unchanged (determinism is
intrinsic, the embedding being a function). -/
theorem evaluate_phase_state_perm (l l' : List Task) (h : l.Perm l') :
    evaluate_phase_state l = evaluate_phase_state l' := by
  unfold evaluate_phase_state
  have h0 : l.isEmpty = l'.isEmpty := by
    cases l with
    | nil => cases l' with
      | nil => rfl
      | cons b bs => exact absurd h.length_eq (by simp)
    | cons a as => cases l' with
      | nil => exact absurd h.length_eq (by simp)
      | cons b bs => rfl
  have hmap := h.map (fun t => t.percentComplete.getD 0)
  simp only [h0, perm_any h, perm_any hmap, perm_all hmap]

/-- C9 witness at a concrete permutation. -/
theorem evaluate_phase_state_perm_witness :
    evaluate_phase_state
        [⟨"t1", "a", some 100, [], none⟩, ⟨"t2", "b", some 0, [(BLOCKER_LABEL, true)], none⟩]
      = evaluate_phase_state
        [⟨"t2", "b", some 0, [(BLOCKER_LABEL, true)], none⟩, ⟨"t1", "a", some 100, [], none⟩] :=
  evaluate_phase_state_perm _ _ (List.Perm.swap _ _ _)

/-- C8: with dry_run set, a non-GET request returns the echo of the
intended method, path and payload, independently of any HTTP outcome (so
no remote side effect can occur), while a GET request behaves exactly as
it does without the flag. -/
theorem planner_request_dry_run (method path : String)
    (json_payload : Option (List (String × String))) (outcome : HttpOutcome) :
    planner_request true method path json_payload outcome =
      (if strUpper method == "GET" then planner_request false method path json_payload outcome
       else .ok (.echo (strUpper method) path (json_payload.getD []))) := by
  unfold planner_request
  cases h : (strUpper method == "GET") <;> simp [h]

/-- C4: sync_workflow never invokes a mutating board-client method: its
call trace consists of reads only (for any client behaviour), and with a
successful client it writes each phase's derived state, the sync stamp
and the dependency issues into the local document only. -/
theorem sync_workflow_never_mutates (env : ClientEnv) (now : String) (w : Workflow)
    (get : String → Task) (hv : ∀ p ∈ w.phases, nameValid p.name = true) :
    (((sync_workflow env now w).2).all fun c => !c.isMutating) = true ∧
    ∃ issues, sync_workflow (pureEnv get) now w =
      (.ok (specSyncedDoc get now w issues),
       w.phases.flatMap fun p => p.taskIds.map ClientCall.getTask) := by
  constructor
  · have htr : (sync_workflow env now w).2 = (syncPhasesGo env w.phases).2 := by
      unfold sync_workflow
      cases hs : syncPhasesGo env w.phases with
      | mk r calls =>
        cases r with
        | error e => rfl
        | ok ps =>
          dsimp only
          split <;> rfl
    rw [htr]
    exact syncPhasesGo_reads env w.phases
  · obtain ⟨issues, _, hs⟩ := sync_workflow_pure get now w hv
    exact ⟨issues, hs⟩

/-- A concrete phase used by the witnesses. -/
def witPhase : Phase :=
  { id := "p1", name := "EXPLORE", state := .pending, dependencies := [],
    owners := [], evidenceLinks := [], taskIds := ["t1"] }

/-- A concrete workflow document used by the witnesses. -/
def witW : Workflow :=
  { workflowId := some "wf", name := some "demo", phases := [witPhase], metadata := {} }

/-- A concrete board snapshot used by the witnesses. -/
def witGet : String → Task := fun _ =>
  { id := "t1", title := "T", percentComplete := some 100,
    appliedCategories := [], etag := some "e" }

/-- C4 witness at a concrete document and client. -/
theorem sync_workflow_never_mutates_witness :
    (((sync_workflow (failEnv (.connection "down")) "now" witW).2).all
        fun c => !c.isMutating) = true ∧
    ∃ issues, sync_workflow (pureEnv witGet) "now" witW =
      (.ok (specSyncedDoc witGet "now" witW issues),
       witW.phases.flatMap fun p => p.taskIds.map ClientCall.getTask) :=
  sync_workflow_never_mutates (failEnv (.connection "down")) "now" witW witGet
    (by intro p hp; fin_cases hp; decide)

/-- C5: for a document whose phase names are all valid, sync_workflow
returns normally (never raises because of a violation) and records into
doc.metadata.dependencyIssues an issue for every phase having a
dependency that resolves to a phase whose order-index is greater than or
equal to the phase's own index. -/
theorem sync_workflow_dependency_validation (get : String → Task) (now : String) (w : Workflow)
    (hv : ∀ p ∈ w.phases, nameValid p.name = true) :
    ∃ doc issues,
      (sync_workflow (pureEnv get) now w).1 = .ok doc ∧
      doc.metadata.dependencyIssues = some issues ∧
      ∀ p ∈ w.phases, ∀ d ∈ p.dependencies, ∀ dp,
        phaseMapLookup w.phases d = some dp →
        phaseIdxD p.name ≤ phaseIdxD dp.name →
        (p.id ++ ": dependency " ++ d ++ " is not earlier phase") ∈ issues := by
  obtain ⟨issues, hvd, hsync⟩ := sync_workflow_pure get now w hv
  have hvd' : validateDeps w.phases w.phases = .ok issues := by
    rw [← validateDeps_map get w.phases w.phases]
    exact hvd
  refine ⟨specSyncedDoc get now w issues, issues, by rw [hsync], rfl, ?_⟩
  intro p hp d hd dp hl hge
  exact validateDeps_flags w.phases p d dp hd hl (hv dp (phaseMapLookup_mem hl)) (hv p hp)
    hge w.phases hp issues hvd'

/-- A phase that depends on a later phase, for the C5 witness. -/
def witPhaseBad : Phase :=
  { id := "p0", name := "EXPLORE", state := .pending, dependencies := ["p2"],
    owners := [], evidenceLinks := [], taskIds := [] }

/-- The later phase the C5 witness depends on. -/
def witPhaseCode : Phase :=
  { id := "p2", name := "CODE", state := .pending, dependencies := [],
    owners := [], evidenceLinks := [], taskIds := [] }

/-- The C5 witness document: EXPLORE depends on CODE, a violation. -/
def witWBad : Workflow :=
  { workflowId := none, name := none, phases := [witPhaseBad, witPhaseCode], metadata := {} }

/-- C5 witness at a concrete document with a dependency violation. -/
theorem sync_workflow_dependency_validation_witness :
    ∃ doc issues,
      (sync_workflow (pureEnv witGet) "now" witWBad).1 = .ok doc ∧
      doc.metadata.dependencyIssues = some issues ∧
      ∀ p ∈ witWBad.phases, ∀ d ∈ p.dependencies, ∀ dp,
        phaseMapLookup witWBad.phases d = some dp →
        phaseIdxD p.name ≤ phaseIdxD dp.name →
        (p.id ++ ": dependency " ++ d ++ " is not earlier phase") ∈ issues :=
  sync_workflow_dependency_validation witGet "now" witWBad
    (by intro p hp; fin_cases hp <;> decide)

/-- C6: the allPhasesCompleted field of closeout_pack's result is true
exactly when every phase's state, as evaluated by the sync_workflow run
it performs first, is completed. -/
theorem closeout_allPhasesCompleted (env : ClientEnv) (nowSync nowGen : String)
    (w synced : Workflow) (calls : List ClientCall)
    (h : sync_workflow env nowSync w = (.ok synced, calls)) :
    ∃ pack, (closeout_pack env nowSync nowGen w).1 = .ok pack ∧
      (pack.allPhasesCompleted = true ↔ ∀ p ∈ synced.phases, p.state = .completed) := by
  unfold closeout_pack
  rw [h]
  refine ⟨_, rfl, ?_⟩
  simp [List.all_map, List.all_eq_true, Function.comp]

theorem percent_mapping_eq_spec (st : PhaseState) :
    TASK_PERCENT_COMPLETE st = specPercent st := by
  cases st <;> rfl

theorem syncTasksGo_pure (get : String → Task) (st : PhaseState) (ids : List String)
    (h : ∀ tid ∈ ids, etagTruthy (get tid).etag = true) :
    syncTasksGo (pureEnv get) st (TASK_PERCENT_COMPLETE st) ids =
      (.ok (), ids.flatMap (specPush get st)) := by
  induction ids with
  | nil => rfl
  | cons tid rest ih =>
    unfold syncTasksGo
    rw [show (pureEnv get).getResult tid = Except.ok (get tid) from rfl]
    dsimp only
    rw [if_pos (h tid (List.mem_cons_self tid rest))]
    rw [show (pureEnv get).updateResult tid ((get tid).etag.getD "")
      (TASK_PERCENT_COMPLETE st)
      (setLabel (get tid).appliedCategories BLOCKER_LABEL (st == .blocked)) = Except.ok ()
      from rfl]
    dsimp only
    rw [ih fun t ht => h t (List.mem_cons_of_mem tid ht)]
    simp [specPush, percent_mapping_eq_spec]

/-- The document the specification says advance_phase produces: each
phase's state recomputed from its order-index relative to the target,
advancedAt and activePhase stamped, everything else untouched. -/
def specAdvancedDoc (now : String) (w : Workflow) (target : String) : Workflow :=
  { w with
      phases := w.phases.map fun p =>
        { p with state := specAdvState (phaseIdxD target) (phaseIdxD p.name) },
      metadata := { w.metadata with
                      advancedAt := some now,
                      activePhase := some (strUpper target) } }

/-- The call trace the specification says advance_phase produces: for
every phase in order and every bound task in order, a re-fetch followed
by the push of the mapped percentComplete and blocker flag. -/
def specAdvanceCalls (get : String → Task) (w : Workflow) (target : String) : List ClientCall :=
  w.phases.flatMap fun p =>
    p.taskIds.flatMap (specPush get (specAdvState (phaseIdxD target) (phaseIdxD p.name)))

theorem advState_eq_spec (ti idx : Nat) : advState ti idx = specAdvState ti idx := rfl

theorem advancePhaseGo_pure (get : String → Task) (ti : Nat) (phases : List Phase)
    (hv : ∀ p ∈ phases, nameValid p.name = true)
    (he : ∀ p ∈ phases, ∀ tid ∈ p.taskIds, etagTruthy (get tid).etag = true) :
    advancePhaseGo (pureEnv get) ti phases =
      (.ok (phases.map fun p => { p with state := specAdvState ti (phaseIdxD p.name) }),
       phases.flatMap fun p =>
         p.taskIds.flatMap (specPush get (specAdvState ti (phaseIdxD p.name)))) := by
  induction phases with
  | nil => rfl
  | cons p rest ih =>
    unfold advancePhaseGo
    rw [phase_index_of_valid p.name (hv p (List.mem_cons_self p rest))]
    dsimp only
    unfold sync_phase_tasks
    dsimp only
    rw [syncTasksGo_pure get (advState ti (phaseIdxD p.name)) p.taskIds
      (he p (List.mem_cons_self p rest))]
    dsimp only
    rw [ih (fun q hq => hv q (List.mem_cons_of_mem p hq))
      (fun q hq => he q (List.mem_cons_of_mem p hq))]
    simp [advState_eq_spec, List.flatMap_cons]

/-- C2: for a document whose phase names are all valid (and a board
whose tasks all carry a concurrency token), advance_phase sets every
phase below the target to completed, the target to in-progress and every
later phase to pending, stamps advancedAt/activePhase, and for every
phase re-fetches each bound task and then pushes to it the
percentComplete given by the fixed mapping of the phase's new state
together with the blocker label set to whether that state is blocked. -/
theorem advance_phase_follows_spec (get : String → Task) (now : String) (w : Workflow)
    (target : String) (htv : nameValid target = true)
    (hv : ∀ p ∈ w.phases, nameValid p.name = true)
    (he : ∀ p ∈ w.phases, ∀ tid ∈ p.taskIds, etagTruthy (get tid).etag = true) :
    advance_phase (pureEnv get) now w target =
      (.ok (specAdvancedDoc now w target), specAdvanceCalls get w target) := by
  unfold advance_phase
  rw [phase_index_of_valid target htv]
  dsimp only
  rw [advancePhaseGo_pure get (phaseIdxD target) w.phases hv he]
  rfl

/-- C2 witness at a concrete document and board. -/
theorem advance_phase_follows_spec_witness :
    advance_phase (pureEnv witGet) "now" witW "EXPLORE" =
      (.ok (specAdvancedDoc "now" witW "EXPLORE"), specAdvanceCalls witGet witW "EXPLORE") :=
  advance_phase_follows_spec witGet "now" witW "EXPLORE" (by decide)
    (by intro p hp; fin_cases hp; decide)
    (by intro p hp; fin_cases hp; intro tid ht; fin_cases ht; decide)

theorem advancePhaseGo_idem (env : ClientEnv) (ti : Nat) :
    ∀ phases ps calls, advancePhaseGo env ti phases = (.ok ps, calls) →
      advancePhaseGo env ti ps = (.ok ps, calls) := by
  intro phases
  induction phases with
  | nil =>
    intro ps calls h
    cases h
    rfl
  | cons p rest ih =>
    intro ps calls h
    unfold advancePhaseGo at h
    cases hpi : phase_index p.name with
    | error e => rw [hpi] at h; cases h
    | ok idx =>
      rw [hpi] at h
      dsimp only at h
      cases hs : sync_phase_tasks env { p with state := advState ti idx } with
      | mk r cs =>
        rw [hs] at h
        cases r with
        | error e => dsimp only at h; cases h
        | ok u =>
          dsimp only at h
          cases hrest : advancePhaseGo env ti rest with
          | mk r2 cs2 =>
            rw [hrest] at h
            cases r2 with
            | error e => dsimp only at h; cases h
            | ok ps2 =>
              dsimp only at h
              cases h
              unfold advancePhaseGo
              dsimp only
              rw [hpi]
              dsimp only
              rw [hs]
              dsimp only
              rw [ih ps2 cs2 hrest]

/-- C3 amended theorem: advance_phase is idempotent up to the clock
stamp: when a first application returns a document, a second application
with the same target returns that same document with only
metadata.advancedAt replaced by the second call's clock reading, and
issues the same call trace; with an equal clock reading the two
documents are identical. -/
theorem advance_phase_idempotent_up_to_timestamp (env : ClientEnv) (now1 now2 : String)
    (w w1 : Workflow) (target : String) (calls : List ClientCall)
    (h : advance_phase env now1 w target = (.ok w1, calls)) :
    advance_phase env now2 w1 target =
      (.ok { w1 with metadata := { w1.metadata with advancedAt := some now2 } }, calls) := by
  unfold advance_phase at h ⊢
  cases hpi : phase_index target with
  | error e =>
    rw [hpi] at h
    dsimp only at h
    cases h
  | ok ti =>
    rw [hpi] at h
    dsimp only at h ⊢
    cases hgo : advancePhaseGo env ti w.phases with
    | mk r cs =>
      rw [hgo] at h
      cases r with
      | error e => dsimp only at h; cases h
      | ok ps =>
        dsimp only at h
        cases h
        dsimp only
        rw [advancePhaseGo_idem env ti w.phases ps calls hgo]

/-- The document advance_phase produces from the witness document at
clock reading t1. -/
def witW1 : Workflow :=
  { workflowId := some "wf", name := some "demo",
    phases := [{ witPhase with state := .inProgress }],
    metadata := { lastSyncedAt := none, advancedAt := some "t1",
                  activePhase := some "EXPLORE", dependencyIssues := none } }

/-- The same document with the second call's clock reading. -/
def witW2 : Workflow :=
  { witW1 with metadata := { witW1.metadata with advancedAt := some "t2" } }

/-- C3 counterexample: at a concrete document, a second advance_phase
call in succession (whose utc_now_iso reading is later) returns a
document differing from the first result in metadata.advancedAt, so the
two resulting documents are not identical. -/
theorem advance_phase_twice_differs :
    (advance_phase (pureEnv witGet) "t1" witW "EXPLORE").1 = .ok witW1 ∧
    (advance_phase (pureEnv witGet) "t2" witW1 "EXPLORE").1 = .ok witW2 ∧
    witW2 ≠ witW1 :=
  ⟨rfl, rfl, by decide⟩

/-- C3 amended-theorem witness at a concrete document. -/
theorem advance_phase_idempotent_up_to_timestamp_witness :
    advance_phase (pureEnv witGet) "t2" witW1 "EXPLORE" =
      (.ok { witW1 with metadata := { witW1.metadata with advancedAt := some "t2" } },
       [ClientCall.getTask "t1",
        ClientCall.updateTask "t1" "e" 50 [(BLOCKER_LABEL, false)]]) :=
  advance_phase_idempotent_up_to_timestamp (pureEnv witGet) "t1" "t2" witW witW1 "EXPLORE"
    [ClientCall.getTask "t1",
     ClientCall.updateTask "t1" "e" 50 [(BLOCKER_LABEL, false)]] (by rfl)

/-- The calls the code makes for one bound task during an advance: a
re-fetch always, and the push only when the fetched snapshot's etag is
truthy. -/
def pushCalls (get : String → Task) (st : PhaseState) (tid : String) : List ClientCall :=
  if etagTruthy (get tid).etag then specPush get st tid else [.getTask tid]

theorem syncTasksGo_pure_full (get : String → Task) (st : PhaseState) (ids : List String) :
    syncTasksGo (pureEnv get) st (TASK_PERCENT_COMPLETE st) ids =
      (.ok (), ids.flatMap (pushCalls get st)) := by
  induction ids with
  | nil => rfl
  | cons tid rest ih =>
    unfold syncTasksGo
    rw [show (pureEnv get).getResult tid = Except.ok (get tid) from rfl]
    dsimp only
    by_cases he : etagTruthy (get tid).etag = true
    · rw [if_pos he]
      rw [show (pureEnv get).updateResult tid ((get tid).etag.getD "")
        (TASK_PERCENT_COMPLETE st)
        (setLabel (get tid).appliedCategories BLOCKER_LABEL (st == .blocked)) = Except.ok ()
        from rfl]
      dsimp only
      rw [ih]
      simp [pushCalls, he, specPush, percent_mapping_eq_spec]
    · rw [if_neg he]
      rw [ih]
      simp [pushCalls, he]

theorem advancePhaseGo_pure_full (get : String → Task) (ti : Nat) (phases : List Phase)
    (hv : ∀ p ∈ phases, nameValid p.name = true) :
    advancePhaseGo (pureEnv get) ti phases =
      (.ok (phases.map fun p => { p with state := specAdvState ti (phaseIdxD p.name) }),
       phases.flatMap fun p =>
         p.taskIds.flatMap (pushCalls get (specAdvState ti (phaseIdxD p.name)))) := by
  induction phases with
  | nil => rfl
  | cons p rest ih =>
    unfold advancePhaseGo
    rw [phase_index_of_valid p.name (hv p (List.mem_cons_self p rest))]
    dsimp only
    unfold sync_phase_tasks
    dsimp only
    rw [syncTasksGo_pure_full get (advState ti (phaseIdxD p.name)) p.taskIds]
    dsimp only
    rw [ih fun q hq => hv q (List.mem_cons_of_mem p hq)]
    simp [advState_eq_spec, List.flatMap_cons]

/-- C10: during advance_phase, a bound task whose freshly fetched
snapshot carries no etag is silently skipped: the call succeeds with no
error, no update is pushed for that task, and the document's phase
states are nevertheless all overwritten as the advance prescribes. -/
theorem advance_phase_skips_missing_etag (get : String → Task) (now : String) (w : Workflow)
    (target : String) (tid0 : String)
    (htv : nameValid target = true)
    (hv : ∀ p ∈ w.phases, nameValid p.name = true)
    (h0 : (get tid0).etag = none) :
    (advance_phase (pureEnv get) now w target).1 = .ok (specAdvancedDoc now w target) ∧
    ∀ c ∈ (advance_phase (pureEnv get) now w target).2, ∀ et pc ls,
      c ≠ .updateTask tid0 et pc ls := by
  have hfull : advance_phase (pureEnv get) now w target =
      (.ok (specAdvancedDoc now w target),
       w.phases.flatMap fun p =>
         p.taskIds.flatMap (pushCalls get (specAdvState (phaseIdxD target) (phaseIdxD p.name)))) := by
    unfold advance_phase
    rw [phase_index_of_valid target htv]
    dsimp only
    rw [advancePhaseGo_pure_full get (phaseIdxD target) w.phases hv]
    rfl
  rw [hfull]
  refine ⟨rfl, ?_⟩
  intro c hc et pc ls heq
  subst heq
  rw [List.mem_flatMap] at hc
  obtain ⟨p, _, hc⟩ := hc
  rw [List.mem_flatMap] at hc
  obtain ⟨tid, _, hc⟩ := hc
  unfold pushCalls at hc
  by_cases he : etagTruthy (get tid).etag = true
  · rw [if_pos he] at hc
    unfold specPush at hc
    rcases List.mem_cons.1 hc with h1 | hc2
    · cases h1
    · rcases List.mem_cons.1 hc2 with h2 | h3
      · injection h2 with e1 e2 e3 e4
        subst e1
        rw [h0] at he
        simp [etagTruthy] at he
      · cases h3
  · rw [if_neg he] at hc
    rcases List.mem_cons.1 hc with h1 | h2
    · cases h1
    · cases h2

/-- The witness board snapshot whose tasks carry no etag. -/
def witGetNoTag : String → Task := fun _ =>
  { id := "t1", title := "T", percentComplete := some 0,
    appliedCategories := [], etag := none }

/-- C10 witness at a concrete document and tokenless board snapshot. -/
theorem advance_phase_skips_missing_etag_witness :
    (advance_phase (pureEnv witGetNoTag) "now" witW "EXPLORE").1 =
      .ok (specAdvancedDoc "now" witW "EXPLORE") ∧
    ∀ c ∈ (advance_phase (pureEnv witGetNoTag) "now" witW "EXPLORE").2, ∀ et pc ls,
      c ≠ .updateTask "t1" et pc ls :=
  advance_phase_skips_missing_etag witGetNoTag "now" witW "EXPLORE" "t1" (by decide)
    (by intro p hp; fin_cases hp; decide) (by decide)

/-- C6 witness at a concrete document whose single phase evaluates to
completed. -/
theorem closeout_allPhasesCompleted_witness :
    ∃ pack, (closeout_pack (pureEnv witGet) "s" "g" witW).1 = .ok pack ∧
      (pack.allPhasesCompleted = true ↔
        ∀ p ∈ (specSyncedDoc witGet "s" witW []).phases, p.state = .completed) :=
  closeout_allPhasesCompleted (pureEnv witGet) "s" "g" witW (specSyncedDoc witGet "s" witW [])
    [ClientCall.getTask "t1"] (by rfl)

theorem syncPhasesGo_fail (e : PlannerError) (phases : List Phase)
    (hp : ∃ p ∈ phases, p.taskIds ≠ []) :
    (syncPhasesGo (failEnv e) phases).1 = .error (.transport e) := by
  induction phases with
  | nil =>
    obtain ⟨p, h0, _⟩ := hp
    cases h0
  | cons p rest ih =>
    unfold syncPhasesGo
    cases hids : p.taskIds with
    | nil =>
      have hrest : ∃ q ∈ rest, q.taskIds ≠ [] := by
        obtain ⟨q, hq, hq2⟩ := hp
        rcases List.mem_cons.1 hq with rfl | hqr
        · exact absurd hids hq2
        · exact ⟨q, hqr, hq2⟩
      have h2 := ih hrest
      revert h2
      cases hrec : syncPhasesGo (failEnv e) rest with
      | mk r2 calls2 =>
        intro h2
        dsimp only at h2
        subst h2
        rfl
    | cons tid tids => rfl

theorem sync_workflow_fail (e : PlannerError) (now : String) (w : Workflow)
    (hp : ∃ p ∈ w.phases, p.taskIds ≠ []) :
    (sync_workflow (failEnv e) now w).1 = .error (.transport e) := by
  unfold sync_workflow
  have h := syncPhasesGo_fail e w.phases hp
  revert h
  cases hs : syncPhasesGo (failEnv e) w.phases with
  | mk r calls =>
    intro h
    dsimp only at h
    subst h
    rfl

theorem closeout_pack_fail (e : PlannerError) (nowS nowG : String) (w : Workflow)
    (hp : ∃ p ∈ w.phases, p.taskIds ≠ []) :
    (closeout_pack (failEnv e) nowS nowG w).1 = .error (.transport e) := by
  unfold closeout_pack
  have h := sync_workflow_fail e nowS w hp
  revert h
  cases hs : sync_workflow (failEnv e) nowS w with
  | mk r calls =>
    intro h
    dsimp only at h
    subst h
    rfl

theorem advancePhaseGo_fail (e : PlannerError) (ti : Nat) (phases : List Phase)
    (hv : ∀ p ∈ phases, nameValid p.name = true)
    (hp : ∃ p ∈ phases, p.taskIds ≠ []) :
    (advancePhaseGo (failEnv e) ti phases).1 = .error (.transport e) := by
  induction phases with
  | nil =>
    obtain ⟨p, h0, _⟩ := hp
    cases h0
  | cons p rest ih =>
    unfold advancePhaseGo
    rw [phase_index_of_valid p.name (hv p (List.mem_cons_self p rest))]
    dsimp only
    unfold sync_phase_tasks
    dsimp only
    cases hids : p.taskIds with
    | nil =>
      have hrest : ∃ q ∈ rest, q.taskIds ≠ [] := by
        obtain ⟨q, hq, hq2⟩ := hp
        rcases List.mem_cons.1 hq with rfl | hqr
        · exact absurd hids hq2
        · exact ⟨q, hqr, hq2⟩
      have h2 := ih (fun q hq => hv q (List.mem_cons_of_mem p hq)) hrest
      revert h2
      cases hrec : advancePhaseGo (failEnv e) ti rest with
      | mk r2 calls2 =>
        intro h2
        dsimp only at h2
        subst h2
        rfl
    | cons tid tids => rfl

theorem advance_phase_fail (e : PlannerError) (now : String) (w : Workflow) (target : String)
    (htv : nameValid target = true)
    (hv : ∀ p ∈ w.phases, nameValid p.name = true)
    (hp : ∃ p ∈ w.phases, p.taskIds ≠ []) :
    (advance_phase (failEnv e) now w target).1 = .error (.transport e) := by
  unfold advance_phase
  rw [phase_index_of_valid target htv]
  dsimp only
  have h := advancePhaseGo_fail e (phaseIdxD target) w.phases hv hp
  revert h
  cases hgo : advancePhaseGo (failEnv e) (phaseIdxD target) w.phases with
  | mk r calls =>
    intro h
    dsimp only at h
    subst h
    rfl

theorem blockerPhasesGo_fail (e : PlannerError) (phases : List Phase)
    (hp : ∃ p ∈ phases, p.taskIds ≠ []) :
    (blockerPhasesGo (failEnv e) phases).1 = .error (.transport e) := by
  induction phases with
  | nil =>
    obtain ⟨p, h0, _⟩ := hp
    cases h0
  | cons p rest ih =>
    unfold blockerPhasesGo
    cases hids : p.taskIds with
    | nil =>
      have hrest : ∃ q ∈ rest, q.taskIds ≠ [] := by
        obtain ⟨q, hq, hq2⟩ := hp
        rcases List.mem_cons.1 hq with rfl | hqr
        · exact absurd hids hq2
        · exact ⟨q, hqr, hq2⟩
      have h2 := ih hrest
      revert h2
      cases hrec : blockerPhasesGo (failEnv e) rest with
      | mk r2 calls2 =>
        intro h2
        dsimp only at h2
        subst h2
        rfl
    | cons tid tids => rfl

theorem blocker_report_fail (e : PlannerError) (now : String) (w : Workflow)
    (hp : ∃ p ∈ w.phases, p.taskIds ≠ []) :
    (blocker_report (failEnv e) now w).1 = .error (.transport e) := by
  unfold blocker_report
  have h := blockerPhasesGo_fail e w.phases hp
  revert h
  cases hs : blockerPhasesGo (failEnv e) w.phases with
  | mk r calls =>
    intro h
    dsimp only at h
    subst h
    rfl

/-- C7: a non-2xx HTTP response inside a board-client request surfaces
as a typed error carrying the status code and response body, a
connection failure as a typed connection error (never a success), and a
failing client's transport error propagates uncaught through
sync_workflow, advance_phase, blocker_report, closeout_pack and
init_plan. -/
theorem transport_errors_propagate (method path : String)
    (payload : Option (List (String × String)))
    (code : Nat) (detail msg : String) (e : PlannerError)
    (nowS nowG : String) (w : Workflow) (target group_id title : String)
    (htv : nameValid target = true)
    (hv : ∀ p ∈ w.phases, nameValid p.name = true)
    (hp : ∃ p ∈ w.phases, p.taskIds ≠ []) :
    planner_request false method path payload (.httpError code detail) =
      .error (.api code detail) ∧
    planner_request false method path payload (.urlError msg) = .error (.connection msg) ∧
    (sync_workflow (failEnv e) nowS w).1 = .error (.transport e) ∧
    (advance_phase (failEnv e) nowS w target).1 = .error (.transport e) ∧
    (blocker_report (failEnv e) nowS w).1 = .error (.transport e) ∧
    (closeout_pack (failEnv e) nowS nowG w).1 = .error (.transport e) ∧
    (init_plan (failInitEnv e) w group_id title).1 = .error (.transport e) :=
  ⟨rfl, rfl, sync_workflow_fail e nowS w hp, advance_phase_fail e nowS w target htv hv hp,
   blocker_report_fail e nowS w hp, closeout_pack_fail e nowS nowG w hp, rfl⟩

/-- C7 witness at concrete request arguments, error, document and
client. -/
theorem transport_errors_propagate_witness :
    planner_request false "PATCH" "/tasks/t1" none (.httpError 409 "conflict") =
      .error (.api 409 "conflict") ∧
    planner_request false "PATCH" "/tasks/t1" none (.urlError "refused") =
      .error (.connection "refused") ∧
    (sync_workflow (failEnv (.api 409 "conflict")) "s" witW).1 =
      .error (.transport (.api 409 "conflict")) ∧
    (advance_phase (failEnv (.api 409 "conflict")) "s" witW "EXPLORE").1 =
      .error (.transport (.api 409 "conflict")) ∧
    (blocker_report (failEnv (.api 409 "conflict")) "s" witW).1 =
      .error (.transport (.api 409 "conflict")) ∧
    (closeout_pack (failEnv (.api 409 "conflict")) "s" "g" witW).1 =
      .error (.transport (.api 409 "conflict")) ∧
    (init_plan (failInitEnv (.api 409 "conflict")) witW "grp" "Title").1 =
      .error (.transport (.api 409 "conflict")) :=
  transport_errors_propagate "PATCH" "/tasks/t1" none 409 "conflict" "refused"
    (.api 409 "conflict") "s" "g" witW "EXPLORE" "grp" "Title" (by decide)
    (by intro p hp; fin_cases hp; decide) (by decide)

end Planner
